import Mathlib

/-!
Verification development for the repository `web3-ethereum-defi`
(files `eth_defi/enzyme/generic_adapter.py`,
`eth_defi/enzyme/vault_controlled_wallet.py`,
`eth_defi/event_reader/web3factory.py`, `eth_defi/deploy.py`).

The Python code delegates byte-level work to `eth_abi.encode`, the
canonical Ethereum ABI encoder (fixed-size head words, dynamic tails,
32-byte alignment).  The embedding below reproduces that canonical
layout for exactly the type shapes used by the source:
`['address[]','bytes[]']`, `['address[]','uint256[]','address[]',
'uint256[]','bytes']` and `['address','bytes4','bytes']`.
Bytes are modelled as `List Nat` (one entry per byte), addresses and
uint256 values as `Nat`.
-/

/-! ## Canonical ABI primitive encoders -/

/-- Big-endian byte string of fixed width `k` holding `n % 256 ^ k`. -/
def beBytes : Nat → Nat → List Nat
  | 0, _ => []
  | k + 1, n => beBytes k (n / 256) ++ [n % 256]

/-- Big-endian interpretation of a byte string as a natural number. -/
def fromBe (bs : List Nat) : Nat := bs.foldl (fun acc b => acc * 256 + b) 0

/-- One 32-byte ABI word: the big-endian, left-zero-padded encoding of `n`.
Both `uint256` and `address` values occupy one such word. -/
def word (n : Nat) : List Nat := beBytes 32 n

/-- Number of zero bytes appended after `n` payload bytes to reach a
32-byte boundary. -/
def padLen (n : Nat) : Nat := (32 - n % 32) % 32

/-- Canonical ABI encoding of a dynamic `bytes` value: length word, the
payload, zero padding to a 32-byte boundary. -/
def encBytes (b : List Nat) : List Nat :=
  word b.length ++ b ++ List.replicate (padLen b.length) 0

/-- Canonical ABI encoding of a dynamic `uint256[]` value: length word
followed by one word per element. -/
def encUintArray (xs : List Nat) : List Nat :=
  word xs.length ++ (xs.map word).flatten

/-- Canonical ABI encoding of `address[]`: identical word layout to
`uint256[]` (addresses are left-padded into a full word). -/
def encAddressArray (xs : List Nat) : List Nat := encUintArray xs

/-- Tail offsets of the elements of a `bytes[]` array, relative to the
start of the element tuple area; the first element sits right after the
`start` accumulated so far. -/
def offsetsFrom (start : Nat) : List (List Nat) → List Nat
  | [] => []
  | d :: ds => start :: offsetsFrom (start + (encBytes d).length) ds

/-- Canonical ABI encoding of a dynamic `bytes[]` value: length word,
one offset word per element (offsets relative to the element tuple
start), then the concatenated `bytes` encodings. -/
def encBytesArray (ds : List (List Nat)) : List Nat :=
  word ds.length ++ ((offsetsFrom (32 * ds.length) ds).map word).flatten
    ++ (ds.map encBytes).flatten

/-- Canonical ABI encoding of a two-component tuple whose components are
both dynamic (here `['address[]','bytes[]']`): two offset words then the
two tails. -/
def encTuple2Dyn (t1 t2 : List Nat) : List Nat :=
  word 64 ++ word (64 + t1.length) ++ t1 ++ t2

/-- Canonical ABI encoding of a five-component tuple whose components
are all dynamic (here `['address[]','uint256[]','address[]','uint256[]',
'bytes']`): five offset words then the five tails. -/
def encTuple5Dyn (t1 t2 t3 t4 t5 : List Nat) : List Nat :=
  word 160 ++ word (160 + t1.length) ++ word (160 + t1.length + t2.length)
    ++ word (160 + t1.length + t2.length + t3.length)
    ++ word (160 + t1.length + t2.length + t3.length + t4.length)
    ++ t1 ++ t2 ++ t3 ++ t4 ++ t5

/-- Static ABI encoding of a `bytes4` value: the four payload bytes,
right-padded with 28 zero bytes. -/
def encBytes4 (selector : List Nat) : List Nat := selector ++ List.replicate 28 0

/-! ## Canonical ABI decoder

The decoder reads the data the way the canonical ABI decoder does: head
offsets and length words are read from the byte string itself, never
recomputed from context. -/

/-- Read `len` bytes at position `pos`; fails when the range does not
fit inside the buffer. -/
def extract (bs : List Nat) (pos len : Nat) : Option (List Nat) :=
  if pos + len ≤ bs.length then some ((bs.drop pos).take len) else none

/-- Read a 32-byte word at `pos` and interpret it big-endian. -/
def readWord (bs : List Nat) (pos : Nat) : Option Nat :=
  (extract bs pos 32).map fromBe

/-- Read `k` consecutive words starting at `pos`. -/
def decodeWords (bs : List Nat) : Nat → Nat → Option (List Nat)
  | _, 0 => some []
  | pos, k + 1 => do
      let w ← readWord bs pos
      let ws ← decodeWords bs (pos + 32) k
      return w :: ws

/-- Decode a `uint256[]` whose encoding starts at `pos`. -/
def decodeUintArrayAt (bs : List Nat) (pos : Nat) : Option (List Nat) := do
  let k ← readWord bs pos
  decodeWords bs (pos + 32) k

/-- Decode an `address[]` whose encoding starts at `pos`: each element
is the low 20 bytes of its word, as the canonical decoder extracts it. -/
def decodeAddrArrayAt (bs : List Nat) (pos : Nat) : Option (List Nat) :=
  (decodeUintArrayAt bs pos).map (List.map (· % 2 ^ 160))

/-- Decode a dynamic `bytes` value whose encoding starts at `pos`. -/
def decodeBytesAt (bs : List Nat) (pos : Nat) : Option (List Nat) := do
  let n ← readWord bs pos
  extract bs (pos + 32) n

/-- Decode `k` elements of a `bytes[]`: read the offset word at `pos`,
follow it relative to `base` (the element tuple start), and continue
with the next head slot. -/
def decodeBytesHeads (bs : List Nat) (base : Nat) : Nat → Nat → Option (List (List Nat))
  | _, 0 => some []
  | pos, k + 1 => do
      let off ← readWord bs pos
      let b ← decodeBytesAt bs (base + off)
      let rest ← decodeBytesHeads bs base (pos + 32) k
      return b :: rest

/-- Decode a `bytes[]` whose encoding starts at `pos`. -/
def decodeBytesArrayAt (bs : List Nat) (pos : Nat) : Option (List (List Nat)) := do
  let k ← readWord bs pos
  decodeBytesHeads bs (pos + 32) (pos + 32) k

/-- Canonical decoder for the type list `['address[]','bytes[]']`, the
shape of the inner external-calls blob. -/
def decodeExternalCallsData (bs : List Nat) : Option (List Nat × List (List Nat)) := do
  let o1 ← readWord bs 0
  let o2 ← readWord bs 32
  let addrs ← decodeAddrArrayAt bs o1
  let datas ← decodeBytesArrayAt bs o2
  return (addrs, datas)

/-- Canonical decoder for the type list
`['address[]','uint256[]','address[]','uint256[]','bytes']`, the shape
of the outer execute-calls blob. -/
def decodeExecuteCallsArgs (bs : List Nat) :
    Option (List Nat × List Nat × List Nat × List Nat × List Nat) := do
  let o1 ← readWord bs 0
  let o2 ← readWord bs 32
  let o3 ← readWord bs 64
  let o4 ← readWord bs 96
  let o5 ← readWord bs 128
  let incoming ← decodeAddrArrayAt bs o1
  let minAmounts ← decodeUintArrayAt bs o2
  let spend ← decodeAddrArrayAt bs o3
  let spendAmounts ← decodeUintArrayAt bs o4
  let inner ← decodeBytesAt bs o5
  return (incoming, minAmounts, spend, spendAmounts, inner)

/-! ## `eth_defi/enzyme/generic_adapter.py` -/

/-- An asset reference, `Asset: TypeAlias = Contract | HexAddress` in
the source: either a deployed contract proxy (whose `.address` field is
modelled as a `Nat`) or a raw address string (its numeric value
modelled as a `Nat`). -/
inductive Asset where
  | contract (address : Nat)
  | raw (address : Nat)
deriving DecidableEq, Repr

/-- Shallow embedding of `_addressify` (generic_adapter.py lines 28-32).
The source asserts `isinstance(asset, Contract) or type(asset) ==
HexAddress`; `HexAddress` is a `typing.NewType`, so no runtime object
ever has it as its `type()` — the second disjunct is `False` for every
raw address string, and the assert fires (`AssertionError: Got bad
asset`).  Thus resolution succeeds exactly on contract proxies, where it
returns `asset.address`; `none` models the raised `AssertionError`. -/
def _addressify : Asset → Option Nat
  | .contract a => some a
  | .raw _ => none

/-- Shallow embedding of `_addressify_collection` (generic_adapter.py
lines 35-36): the list comprehension `[_addressify(a) for a in assets]`
resolves each asset in order and propagates the first raised error. -/
def _addressify_collection : List Asset → Option (List Nat)
  | [] => some []
  | a :: l => do
      let x ← _addressify a
      let xs ← _addressify_collection l
      return x :: xs

/-- The stage-1 blob of `encode_generic_adapter_execute_calls_args`:
`encode(['address[]','bytes[]'], [addresses, datas])` in the source. -/
def innerBlob (addresses : List Nat) (datas : List (List Nat)) : List Nat :=
  encTuple2Dyn (encAddressArray addresses) (encBytesArray datas)

/-- The stage-2 blob of `encode_generic_adapter_execute_calls_args`:
`encode(['address[]','uint256[]','address[]','uint256[]','bytes'], ...)`
in the source, taking the stage-1 blob as the final `bytes` value. -/
def outerBlob (incoming minAmounts spend spendAmounts : List Nat)
    (inner : List Nat) : List Nat :=
  encTuple5Dyn (encAddressArray incoming) (encUintArray minAmounts)
    (encAddressArray spend) (encUintArray spendAmounts) (encBytes inner)

/-- Shallow embedding of `encode_generic_adapter_execute_calls_args`
(generic_adapter.py lines 39-80).  The source resolves the external-call
targets, encodes `['address[]','bytes[]']`, then encodes the outer
`['address[]','uint256[]','address[]','uint256[]','bytes']` tuple with
the resolved incoming and spend assets; `eth_abi.encode` produces the
canonical layouts embedded above.  `none` models a raised error
(the `_addressify` assertion); note that no relationship between the
lengths of the sibling lists is ever checked. -/
def encode_generic_adapter_execute_calls_args
    (incoming_assets : List Asset) (min_incoming_asset_amounts : List Nat)
    (spend_assets : List Asset) (spend_asset_amounts : List Nat)
    (external_calls : List (Asset × List Nat)) : Option (List Nat) := do
  let addresses ← _addressify_collection (external_calls.map Prod.fst)
  let datas := external_calls.map Prod.snd
  let encoded_external_calls_data := innerBlob addresses datas
  let incoming ← _addressify_collection incoming_assets
  let spend ← _addressify_collection spend_assets
  return outerBlob incoming min_incoming_asset_amounts spend
      spend_asset_amounts encoded_external_calls_data

/-- Shallow embedding of `encode_call_on_integration_args`
(generic_adapter.py lines 96-115).  The source first asserts that the
selector is exactly 4 bytes and that `encoded_call_args` is non-empty,
then encodes `['address','bytes4','bytes']`: the adapter address word,
the right-padded selector, the offset word 96 and the dynamic bytes
tail.  `none` models a raised `AssertionError`. -/
def encode_call_on_integration_args (adapter : Asset) (selector : List Nat)
    (encoded_call_args : List Nat) : Option (List Nat) :=
  if selector.length = 4 ∧ 0 < encoded_call_args.length then
    (_addressify adapter).map fun a =>
      word a ++ encBytes4 selector ++ word 96 ++ encBytes encoded_call_args
  else none

/-! ## `eth_defi/enzyme/vault_controlled_wallet.py` -/

/-- Modelled from the spec: `HotWallet` lives in `eth_defi/hotwallet.py`
which is not under `src/`; the spec describes its nonce counter as "a
single monotonically increasing integer per wallet", where
`allocate_nonce()` "atomically returns the current counter value and
increments it" and `sync_nonce` "reads the current on-chain transaction
count for the account and adopts it as the local counter's starting
value". -/
structure HotWallet where
  current_nonce : Nat
deriving DecidableEq, Repr

/-- Modelled from the spec: return the current counter value and
increment the counter. -/
def HotWallet.allocate_nonce (w : HotWallet) : Nat × HotWallet :=
  (w.current_nonce, ⟨w.current_nonce + 1⟩)

/-- Modelled from the spec: adopt the on-chain transaction count
unconditionally as the local counter value. -/
def HotWallet.sync_nonce (onChainCount : Nat) : HotWallet := ⟨onChainCount⟩

/-- Shallow embedding of the `VaultControlledWallet` state
(vault_controlled_wallet.py lines 17-26): `__init__` stores exactly
`self.vault` and `self.hot_wallet`; the vault handle plays no role in
the claims and is omitted, the nonce-relevant state is the hot wallet.
In particular no attribute named `account` is ever defined on the
instance. -/
structure VaultControlledWallet where
  hot_wallet : HotWallet
deriving DecidableEq, Repr

/-- Shallow embedding of `VaultControlledWallet.allocate_nonce`
(lines 37-44): delegates to `self.hot_wallet.allocate_nonce()`. -/
def VaultControlledWallet.allocate_nonce (w : VaultControlledWallet) :
    Nat × VaultControlledWallet :=
  let p := w.hot_wallet.allocate_nonce
  (p.1, ⟨p.2⟩)

/-- A transaction request dict: the `"nonce"` key (absent = `none`) and
the remaining key/value entries, which the signing path never touches. -/
structure Tx where
  nonce : Option Nat
  fields : List (String × String)
deriving DecidableEq, Repr

/-- Which exception the signing call raises. -/
inductive SignFailure where
  /-- Line 51: `assert "nonce" not in tx` fires. -/
  | assertionError
  /-- Line 53: `self.account.sign_transaction(tx)` dereferences the
  attribute `account`, which `__init__` never defines. -/
  | attributeError
deriving DecidableEq, Repr

/-- Observable outcome of a call to `sign_transaction_with_new_nonce`:
the wallet state afterwards, the request dict afterwards (Python dicts
are mutated in place), and the exception raised.  On this code path a
signed transaction is never produced. -/
structure SignCallResult where
  wallet : VaultControlledWallet
  tx : Tx
  outcome : SignFailure
deriving DecidableEq, Repr

/-- Shallow embeddding of
`VaultControlledWallet.sign_transaction_with_new_nonce` (lines 46-64).
Execution order in the source: line 51 `assert "nonce" not in tx`
(raises `AssertionError` before any state change when a nonce is
present); line 52 `tx["nonce"] = self.allocate_nonce()` (mutates the
dict in place — the docstring says "This is modified in-place to
include nonce" — and increments the counter); line 53
`self.account.sign_transaction(tx)` raises `AttributeError` because
`__init__` defines only `self.vault` and `self.hot_wallet` (and line 54
would raise `NameError`: `decode_signed_transaction` is not imported).
So every call raises; a nonce-free request still gets its nonce set and
the counter consumed first. -/
def VaultControlledWallet.sign_transaction_with_new_nonce
    (w : VaultControlledWallet) (tx : Tx) : SignCallResult :=
  match tx.nonce with
  | some _ => ⟨w, tx, .assertionError⟩
  | none =>
    let p := w.allocate_nonce
    ⟨p.2, { tx with nonce := some p.1 }, .attributeError⟩

/-- Call `allocate_nonce` a given number of times, collecting the
returned nonces in order. -/
def allocateNonces (w : VaultControlledWallet) : Nat → List Nat × VaultControlledWallet
  | 0 => ([], w)
  | n + 1 =>
    let p := w.allocate_nonce
    let q := allocateNonces p.2 n
    (p.1 :: q.1, q.2)

/-! ## `eth_defi/event_reader/web3factory.py` -/

/-- A `Web3` connection handle.  `id` models Python object identity
(each `Web3(...)` construction yields a fresh object); `provider_url`
is the JSON-RPC endpoint the `HTTPProvider` was bound to at
construction. -/
structure Web3 where
  id : Nat
  provider_url : String
deriving DecidableEq, Repr

/-- Shallow embedding of the `TunedWeb3Factory` configuration
(web3factory.py lines 55-81): the endpoint URL and the
`thread_local_cache` flag.  The HTTP adapter carries no claim-relevant
state and is omitted. -/
structure TunedWeb3Factory where
  json_rpc_url : String
  thread_local_cache : Bool
deriving DecidableEq, Repr

/-- The module-level mutable state: `_web3_thread_local_cache =
local()` (web3factory.py line 16) maps each thread to at most one
stored handle (its `web3` attribute), shared by every factory instance
in the process; `nextId` supplies fresh object identities for newly
constructed handles. -/
structure ModuleState where
  cache : Nat → Option Web3
  nextId : Nat

/-- Process start state: no thread has a cached handle yet. -/
def initModuleState : ModuleState := ⟨fun _ => none, 0⟩

/-- Shallow embedding of `TunedWeb3Factory.__call__` (lines 83-112),
invoked on thread `tid`: when `thread_local_cache` is set and the
calling thread already stores a handle, return it unchanged; otherwise
construct a fresh `Web3` bound to `self.json_rpc_url` (session set-up
and middleware installation carry no claim-relevant state) and, when
caching is enabled, store it for the calling thread. -/
def TunedWeb3Factory.call (f : TunedWeb3Factory) (s : ModuleState) (tid : Nat) :
    Web3 × ModuleState :=
  if f.thread_local_cache then
    match s.cache tid with
    | some w => (w, s)
    | none =>
      let w : Web3 := ⟨s.nextId, f.json_rpc_url⟩
      (w, ⟨fun t => if t = tid then some w else s.cache t, s.nextId + 1⟩)
  else
    let w : Web3 := ⟨s.nextId, f.json_rpc_url⟩
    (w, { s with nextId := s.nextId + 1 })

/-- Invariant of the module-level cache: every cached handle was
constructed earlier (its identity is below the fresh counter) and no two
threads cache the same handle.  It holds in the start state and is
preserved by every factory call. -/
def CacheInv (s : ModuleState) : Prop :=
  (∀ t w, s.cache t = some w → w.id < s.nextId) ∧
  (∀ t t' w w', s.cache t = some w → s.cache t' = some w' → w.id = w'.id → t = t')

/-! ## Supporting lemmas: nonce allocation -/

/-- The nonces returned by `N` consecutive allocations from counter
value `k` are the ascending run `k, k+1, …, k+N-1`. -/
theorem allocateNonces_fst (k N : Nat) :
    (allocateNonces ⟨⟨k⟩⟩ N).1 = (List.range N).map (k + ·) := by
  induction N generalizing k with
  | zero => rfl
  | succ n ih =>
      have h1 : (allocateNonces ⟨⟨k⟩⟩ (n + 1)).1
          = k :: (allocateNonces ⟨⟨k + 1⟩⟩ n).1 := rfl
      rw [h1, ih (k + 1), List.range_succ_eq_map, List.map_cons, List.map_map]
      simp only [Nat.add_zero]
      congr 1
      exact List.map_congr_left fun i _ => by simp only [Function.comp_apply]; omega

/-- After `N` allocations from counter value `k` the counter stands at
`k + N`. -/
theorem allocateNonces_snd (k N : Nat) :
    (allocateNonces ⟨⟨k⟩⟩ N).2 = ⟨⟨k + N⟩⟩ := by
  induction N generalizing k with
  | zero => rfl
  | succ n ih =>
      have h1 : (allocateNonces ⟨⟨k⟩⟩ (n + 1)).2
          = (allocateNonces ⟨⟨k + 1⟩⟩ n).2 := rfl
      rw [h1, ih (k + 1)]
      simp only [VaultControlledWallet.mk.injEq, HotWallet.mk.injEq]
      omega

/-! ## Supporting lemmas: web3 factory -/

/-- The start state satisfies the cache invariant. -/
theorem cacheInv_init : CacheInv initModuleState := by
  constructor
  · intro t w h
    simp [initModuleState] at h
  · intro t t' w w' h
    simp [initModuleState] at h

/-- A cache-enabled factory returns the calling thread's stored handle
unchanged when one exists. -/
theorem TunedWeb3Factory.call_cached (f : TunedWeb3Factory)
    (hf : f.thread_local_cache = true) (s : ModuleState) (tid : Nat)
    (w : Web3) (h : s.cache tid = some w) : f.call s tid = (w, s) := by
  unfold TunedWeb3Factory.call
  rw [hf, h]
  rfl

/-- A cache-enabled factory invoked on a thread with no stored handle
constructs a fresh handle bound to its own endpoint and stores it for
that thread. -/
theorem TunedWeb3Factory.call_fresh (f : TunedWeb3Factory)
    (hf : f.thread_local_cache = true) (s : ModuleState) (tid : Nat)
    (h : s.cache tid = none) :
    f.call s tid = (⟨s.nextId, f.json_rpc_url⟩,
      ⟨fun t => if t = tid then some ⟨s.nextId, f.json_rpc_url⟩ else s.cache t,
        s.nextId + 1⟩) := by
  unfold TunedWeb3Factory.call
  rw [hf, h]
  rfl

/-- A factory call with caching disabled only consumes a fresh handle
identity. -/
theorem TunedWeb3Factory.call_nocache (f : TunedWeb3Factory)
    (hf : f.thread_local_cache = false) (s : ModuleState) (tid : Nat) :
    f.call s tid = (⟨s.nextId, f.json_rpc_url⟩, { s with nextId := s.nextId + 1 }) := by
  unfold TunedWeb3Factory.call
  rw [hf]
  rfl

/-- One factory call preserves the cache invariant. -/
theorem cacheInv_preserved (f : TunedWeb3Factory) (s : ModuleState)
    (tid : Nat) (hs : CacheInv s) : CacheInv (f.call s tid).2 := by
  obtain ⟨h1, h2⟩ := hs
  cases hf : f.thread_local_cache with
  | false =>
      rw [TunedWeb3Factory.call_nocache f hf s tid]
      exact ⟨fun t w h => Nat.lt_succ_of_lt (h1 t w h), h2⟩
  | true =>
      cases hc : s.cache tid with
      | some w =>
          rw [TunedWeb3Factory.call_cached f hf s tid w hc]
          exact ⟨h1, h2⟩
      | none =>
          rw [TunedWeb3Factory.call_fresh f hf s tid hc]
          refine ⟨?_, ?_⟩
          · intro t w h
            by_cases ht : t = tid
            · simp only [ht, if_pos rfl] at h
              cases h
              exact Nat.lt_succ_self _
            · simp only [if_neg ht] at h
              exact Nat.lt_succ_of_lt (h1 t w h)
          · intro t t' w w' hw hw' hid
            by_cases ht : t = tid <;> by_cases ht' : t' = tid
            · rw [ht, ht']
            · simp only [ht, if_pos rfl] at hw
              simp only [if_neg ht'] at hw'
              cases hw
              have := h1 t' w' hw'
              simp only [Web3.mk.injEq] at hid ⊢
              omega
            · simp only [if_neg ht] at hw
              simp only [ht', if_pos rfl] at hw'
              cases hw'
              have := h1 t w hw
              simp only [Web3.mk.injEq] at hid ⊢
              omega
            · simp only [if_neg ht] at hw
              simp only [if_neg ht'] at hw'
              exact h2 t t' w w' hw hw' hid

/-! ## Claim theorems: wallet and factory -/

/-- C3: a wallet whose nonce counter was synced to on-chain value `k`
returns, over `N` calls to `allocate_nonce`, exactly the sequence
`k, k+1, …, k+N-1`; the sequence has no duplicates (each value exactly
once), and the counter afterwards stands at `k + N`, so no later call
can ever repeat a value. -/
theorem c3_allocate_nonce_sequence (k N : Nat) :
    (allocateNonces ⟨HotWallet.sync_nonce k⟩ N).1 = (List.range N).map (k + ·) ∧
    ((allocateNonces ⟨HotWallet.sync_nonce k⟩ N).1).Nodup ∧
    (allocateNonces ⟨HotWallet.sync_nonce k⟩ N).2 = ⟨⟨k + N⟩⟩ := by
  have hw : (⟨HotWallet.sync_nonce k⟩ : VaultControlledWallet) = ⟨⟨k⟩⟩ := rfl
  rw [hw, allocateNonces_fst, allocateNonces_snd]
  refine ⟨rfl, ?_, rfl⟩
  exact List.Nodup.map (fun a b h => by omega) (List.nodup_range N)

/-- C4: `sign_transaction_with_new_nonce` on a request that already
carries a nonce fails with the line-51 `AssertionError`, and on that
failure nothing is mutated: the wallet (hence the nonce counter) and
the request are exactly as before the call. -/
theorem c4_sign_with_nonce_fails_state_unchanged
    (w : VaultControlledWallet) (tx : Tx) (n : Nat) (h : tx.nonce = some n) :
    w.sign_transaction_with_new_nonce tx = ⟨w, tx, SignFailure.assertionError⟩ := by
  unfold VaultControlledWallet.sign_transaction_with_new_nonce
  rw [h]

/-- Witness for C4 at a concrete wallet and request. -/
theorem c4_witness :
    (Tx.mk (some 3) [("to", "0x1")]).nonce = some 3 ∧
    VaultControlledWallet.sign_transaction_with_new_nonce ⟨⟨7⟩⟩ ⟨some 3, [("to", "0x1")]⟩
      = ⟨⟨⟨7⟩⟩, ⟨some 3, [("to", "0x1")]⟩, SignFailure.assertionError⟩ :=
  ⟨rfl, c4_sign_with_nonce_fails_state_unchanged ⟨⟨7⟩⟩ ⟨some 3, [("to", "0x1")]⟩ 3 rfl⟩

/-- C5 (code bug, evaluated at the failing input): on a nonce-free
request the call does not return a signed-transaction record; it
allocates the nonce, writes it into the request, and then raises
`AttributeError` at `self.account.sign_transaction(tx)` because
`__init__` never defines `self.account`. -/
theorem c5_sign_raises_attribute_error_at_failing_input :
    VaultControlledWallet.sign_transaction_with_new_nonce ⟨⟨0⟩⟩ ⟨none, [("to", "0x1")]⟩
      = ⟨⟨⟨1⟩⟩, ⟨some 0, [("to", "0x1")]⟩, SignFailure.attributeError⟩ := rfl

/-- C6 (code bug, evaluated at the failing input): `_addressify`
raises its `AssertionError` on the raw address string
`"0x0000000000000000000000000000000000000001"` (because
`type(asset) == HexAddress` is false for every runtime string), while
it does resolve a contract proxy with that address. -/
theorem c6_addressify_raises_on_raw_address :
    _addressify (Asset.raw 1) = none ∧ _addressify (Asset.contract 1) = some 1 :=
  ⟨rfl, rfl⟩

/-- C7: `encode_call_on_integration_args` returns an encoded envelope
exactly when the selector is 4 bytes long and the encoded call args
are non-empty; any other selector length or empty call args makes it
fail (raise). -/
theorem c7_call_on_integration_preconditions
    (a : Nat) (selector encoded_call_args : List Nat) :
    (encode_call_on_integration_args (Asset.contract a) selector encoded_call_args).isSome
      ↔ (selector.length = 4 ∧ 0 < encoded_call_args.length) := by
  unfold encode_call_on_integration_args
  by_cases h : selector.length = 4 ∧ 0 < encoded_call_args.length
  · simp [h, _addressify]
  · simp [h]

/-- C8 counterexample: the request is not immutable across signing —
for the concrete nonce-free request `{"to": "0x1"}` the dict after the
call differs from the dict before (it now carries the nonce), exactly
as the source docstring says ("This is modified in-place to include
nonce"). -/
theorem c8_counterexample :
    (VaultControlledWallet.sign_transaction_with_new_nonce ⟨⟨0⟩⟩ ⟨none, [("to", "0x1")]⟩).tx
      ≠ ⟨none, [("to", "0x1")]⟩ := by decide

/-- C8 amended: a nonce-free request passed to
`sign_transaction_with_new_nonce` is mutated in place, but only at the
`"nonce"` key: the allocated counter value is written there and every
other field is unchanged. -/
theorem c8_sign_mutates_request_nonce_only
    (w : VaultControlledWallet) (tx : Tx) (h : tx.nonce = none) :
    (w.sign_transaction_with_new_nonce tx).tx
      = { tx with nonce := some w.hot_wallet.current_nonce } := by
  unfold VaultControlledWallet.sign_transaction_with_new_nonce
  rw [h]
  rfl

/-- Witness for the amended C8 at a concrete wallet and request. -/
theorem c8_witness :
    (Tx.mk none [("to", "0x1")]).nonce = none ∧
    (VaultControlledWallet.sign_transaction_with_new_nonce ⟨⟨4⟩⟩ ⟨none, [("to", "0x1")]⟩).tx
      = ⟨some 4, [("to", "0x1")]⟩ :=
  ⟨rfl, c8_sign_mutates_request_nonce_only ⟨⟨4⟩⟩ ⟨none, [("to", "0x1")]⟩ rfl⟩

/-- C9: for a cache-enabled factory, in any state satisfying the cache
invariant, a call on thread `t1` stores the returned handle for `t1`,
a repeated call on `t1` returns the identical handle with the state
unchanged, a call on a different thread `t2` receives a different
handle, and the invariant is preserved. -/
theorem c9_thread_local_cache_behavior
    (f : TunedWeb3Factory) (hf : f.thread_local_cache = true)
    (s : ModuleState) (hs : CacheInv s) (t1 t2 : Nat) (hne : t1 ≠ t2)
    (w1 : Web3) (s1 : ModuleState) (hcall : f.call s t1 = (w1, s1)) :
    f.call s1 t1 = (w1, s1) ∧ s1.cache t1 = some w1 ∧
    (f.call s1 t2).1 ≠ w1 ∧ CacheInv s1 := by
  have hinv : CacheInv s1 := by
    have h := cacheInv_preserved f s t1 hs
    rw [hcall] at h
    exact h
  obtain ⟨h1, h2⟩ := hs
  cases hc1 : s.cache t1 with
  | some w =>
      rw [TunedWeb3Factory.call_cached f hf s t1 w hc1, Prod.mk.injEq] at hcall
      obtain ⟨rfl, rfl⟩ := hcall
      refine ⟨TunedWeb3Factory.call_cached f hf s t1 w hc1, hc1, ?_, hinv⟩
      cases hc2 : s.cache t2 with
      | some w' =>
          rw [TunedWeb3Factory.call_cached f hf s t2 w' hc2]
          intro hww
          exact hne (h2 t1 t2 w w' hc1 hc2 (by rw [show w' = w from hww]))
      | none =>
          rw [TunedWeb3Factory.call_fresh f hf s t2 hc2]
          intro hww
          have hlt := h1 t1 w hc1
          rw [← hww] at hlt
          simp at hlt
  | none =>
      rw [TunedWeb3Factory.call_fresh f hf s t1 hc1, Prod.mk.injEq] at hcall
      obtain ⟨rfl, rfl⟩ := hcall
      refine ⟨?_, ?_, ?_, hinv⟩
      · exact TunedWeb3Factory.call_cached f hf _ t1 _ (by simp)
      · simp
      · cases hc2 : s.cache t2 with
        | some w' =>
            rw [TunedWeb3Factory.call_cached f hf _ t2 w' (by simp [Ne.symm hne, hc2])]
            intro hww
            have hlt := h1 t2 w' hc2
            rw [show w' = ⟨s.nextId, f.json_rpc_url⟩ from hww] at hlt
            simp at hlt
        | none =>
            rw [TunedWeb3Factory.call_fresh f hf _ t2 (by simp [Ne.symm hne, hc2])]
            intro hww
            simp [Web3.mk.injEq] at hww

/-- Witness for C9: concrete factory, start state, threads 0 and 1. -/
theorem c9_witness :
    TunedWeb3Factory.call ⟨"https://node.example", true⟩
        ⟨fun t => if t = 0 then some ⟨0, "https://node.example"⟩ else none, 1⟩ 0
      = (⟨0, "https://node.example"⟩,
         ⟨fun t => if t = 0 then some ⟨0, "https://node.example"⟩ else none, 1⟩) ∧
    (⟨fun t => if t = 0 then some ⟨0, "https://node.example"⟩ else none, 1⟩ :
        ModuleState).cache 0 = some ⟨0, "https://node.example"⟩ ∧
    (TunedWeb3Factory.call ⟨"https://node.example", true⟩
        ⟨fun t => if t = 0 then some ⟨0, "https://node.example"⟩ else none, 1⟩ 1).1
      ≠ ⟨0, "https://node.example"⟩ ∧
    CacheInv ⟨fun t => if t = 0 then some ⟨0, "https://node.example"⟩ else none, 1⟩ :=
  c9_thread_local_cache_behavior ⟨"https://node.example", true⟩ rfl
    initModuleState cacheInv_init 0 1 (by decide)
    ⟨0, "https://node.example"⟩
    ⟨fun t => if t = 0 then some ⟨0, "https://node.example"⟩ else none, 1⟩ rfl

/-- C10: the thread-local handle cache is module-level state keyed only
by thread — with two cache-enabled factories (regardless of their
endpoint URLs), once factory `f1` has been invoked on thread `t`,
invoking factory `f2` on that thread returns `f1`'s cached handle and
changes nothing, and that handle is bound to `f1`'s endpoint, not
`f2`'s. -/
theorem c10_cache_shared_across_factory_instances
    (f1 f2 : TunedWeb3Factory) (hf1 : f1.thread_local_cache = true)
    (hf2 : f2.thread_local_cache = true) (s : ModuleState) (t : Nat)
    (hs : s.cache t = none) (w1 : Web3) (s1 : ModuleState)
    (hcall : f1.call s t = (w1, s1)) :
    f2.call s1 t = (w1, s1) ∧ w1.provider_url = f1.json_rpc_url := by
  rw [TunedWeb3Factory.call_fresh f1 hf1 s t hs, Prod.mk.injEq] at hcall
  obtain ⟨rfl, rfl⟩ := hcall
  exact ⟨TunedWeb3Factory.call_cached f2 hf2 _ t _ (by simp), rfl⟩

/-- Witness for C10: two factories with different endpoint URLs sharing
the cache on thread 0. -/
theorem c10_witness :
    TunedWeb3Factory.call ⟨"https://b.example", true⟩
        ⟨fun t => if t = 0 then some ⟨0, "https://a.example"⟩ else none, 1⟩ 0
      = (⟨0, "https://a.example"⟩,
         ⟨fun t => if t = 0 then some ⟨0, "https://a.example"⟩ else none, 1⟩) ∧
    (Web3.mk 0 "https://a.example").provider_url = "https://a.example" :=
  c10_cache_shared_across_factory_instances ⟨"https://a.example", true⟩
    ⟨"https://b.example", true⟩ rfl rfl initModuleState 0 rfl
    ⟨0, "https://a.example"⟩
    ⟨fun t => if t = 0 then some ⟨0, "https://a.example"⟩ else none, 1⟩ rfl

/-! ## Claim theorems: generic adapter error handling -/

/-- Resolution of a whole collection succeeds exactly when every
element resolves. -/
theorem addressify_collection_isSome : ∀ (xs : List Asset),
    (_addressify_collection xs).isSome = true ↔ ∀ x ∈ xs, (_addressify x).isSome = true
  | [] => by simp [_addressify_collection]
  | a :: l => by
      have ih := addressify_collection_isSome l
      cases ha : _addressify a with
      | none => simp [_addressify_collection, ha]
      | some v =>
          cases hl : _addressify_collection l with
          | none =>
              simp only [hl, Option.isSome_none, Bool.false_eq_true, false_iff] at ih
              simp [_addressify_collection, ha, hl, List.forall_mem_cons, ih]
          | some ys =>
              simp only [hl, Option.isSome_some, true_iff] at ih
              simp only [_addressify_collection, ha, hl, List.forall_mem_cons]
              simp [ih]
              exact ih

/-- C2 counterexample: at the concrete input with mismatched sibling
lists — one incoming asset but zero minimum incoming amounts — the
function does not raise: it returns a fully encoded byte string. -/
theorem c2_counterexample_length_mismatch :
    (encode_generic_adapter_execute_calls_args [Asset.contract 1] [] [] [] []).isSome
      = true := rfl

/-- C2 amended: for in-range amounts, the encoder raises exactly when
some asset reference fails to resolve (the `AssertionError` names the
offending value); sibling-list length mismatches are never checked, and
whenever every asset resolves a complete encoding is returned.  The
two amount-range hypotheses only delimit the inputs on which the
embedding mirrors `eth_abi` (which rejects out-of-range integers). -/
theorem c2_encode_succeeds_iff_assets_resolve
    (incoming_assets : List Asset) (min_incoming_asset_amounts : List Nat)
    (spend_assets : List Asset) (spend_asset_amounts : List Nat)
    (external_calls : List (Asset × List Nat))
    (hmin : ∀ x ∈ min_incoming_asset_amounts, x < 2 ^ 256)
    (hspa : ∀ x ∈ spend_asset_amounts, x < 2 ^ 256) :
    (encode_generic_adapter_execute_calls_args incoming_assets
        min_incoming_asset_amounts spend_assets spend_asset_amounts
        external_calls).isSome = true
      ↔ ((∀ c ∈ external_calls, (_addressify c.1).isSome = true) ∧
         (∀ a ∈ incoming_assets, (_addressify a).isSome = true) ∧
         (∀ a ∈ spend_assets, (_addressify a).isSome = true)) := by
  have e1 := addressify_collection_isSome (external_calls.map Prod.fst)
  rw [List.forall_mem_map] at e1
  rw [← e1, ← addressify_collection_isSome incoming_assets,
    ← addressify_collection_isSome spend_assets]
  unfold encode_generic_adapter_execute_calls_args
  cases h1 : _addressify_collection (external_calls.map Prod.fst) <;>
    cases h2 : _addressify_collection incoming_assets <;>
      cases h3 : _addressify_collection spend_assets <;>
        simp [h1, h2, h3]

/-- Witness for the amended C2 at concrete inputs (one unresolvable
raw-string asset among the external calls). -/
theorem c2_witness :
    (∀ x ∈ [(7 : Nat)], x < 2 ^ 256) ∧
    ((encode_generic_adapter_execute_calls_args [Asset.contract 1] [7] [] []
        [(Asset.raw 3, [1])]).isSome = true
      ↔ ((∀ c ∈ [(Asset.raw 3, ([1] : List Nat))], (_addressify c.1).isSome = true) ∧
         (∀ a ∈ [Asset.contract 1], (_addressify a).isSome = true) ∧
         (∀ a ∈ ([] : List Asset), (_addressify a).isSome = true))) :=
  ⟨by decide,
    c2_encode_succeeds_iff_assets_resolve [Asset.contract 1] [7] [] []
      [(Asset.raw 3, [1])] (by decide) (by decide)⟩

/-! ## Supporting lemmas: ABI words and buffer reads -/

/-- Fixed-width big-endian byte strings have their width as length. -/
theorem beBytes_length (k n : Nat) : (beBytes k n).length = k := by
  induction k generalizing n with
  | zero => rfl
  | succ k ih => simp [beBytes, ih]

/-- ABI words are 32 bytes long. -/
theorem word_length (n : Nat) : (word n).length = 32 := beBytes_length 32 n

/-- Appending one byte shifts the big-endian value by one base-256
digit. -/
theorem fromBe_append_byte (xs : List Nat) (b : Nat) :
    fromBe (xs ++ [b]) = fromBe xs * 256 + b := by
  simp [fromBe, List.foldl_append]

/-- Reading back a fixed-width big-endian byte string recovers the
value modulo the width's range. -/
theorem fromBe_beBytes (k n : Nat) : fromBe (beBytes k n) = n % 256 ^ k := by
  induction k generalizing n with
  | zero => simp [beBytes, fromBe, Nat.mod_one]
  | succ k ih =>
      rw [beBytes, fromBe_append_byte, ih]
      have h : n % (256 * 256 ^ k) = n % 256 + 256 * (n / 256 % 256 ^ k) :=
        Nat.mod_mul
      rw [pow_succ, mul_comm (256 ^ k) 256, h]
      omega

/-- Reading back a word recovers any value below `2 ^ 256`. -/
theorem fromBe_word {n : Nat} (h : n < 2 ^ 256) : fromBe (word n) = n := by
  have h2 : (256 : Nat) ^ 32 = 2 ^ 256 := by norm_num
  rw [word, fromBe_beBytes, h2, Nat.mod_eq_of_lt h]

/-- Extracting a segment that sits between a prefix and a suffix
returns exactly that segment. -/
theorem extract_at {bs : List Nat} (pre mid post : List Nat) {pos len : Nat}
    (hbs : bs = pre ++ (mid ++ post)) (hpos : pos = pre.length)
    (hlen : len = mid.length) :
    extract bs pos len = some mid := by
  subst hbs hpos hlen
  unfold extract
  rw [if_pos (by simp [List.length_append])]
  rw [List.drop_left, List.take_left]

/-- A sub-range of a successfully extracted segment extracts the
corresponding sub-segment. -/
theorem extract_sub {bs m : List Nat} {pos L : Nat}
    (h : extract bs pos L = some m) (a b : Nat) (hab : a + b ≤ L) :
    extract bs (pos + a) b = some ((m.drop a).take b) := by
  unfold extract at h ⊢
  by_cases hle : pos + L ≤ bs.length
  · rw [if_pos hle] at h
    injection h with h
    rw [if_pos (by omega)]
    subst h
    have hmin : min b (L - a) = b := by omega
    rw [List.drop_take, List.take_take, List.drop_drop, hmin]
  · rw [if_neg hle] at h
    exact absurd h (by simp)

/-- Reading a word placed between a prefix and a suffix recovers its
value. -/
theorem readWord_at {bs : List Nat} (pre post : List Nat) {pos n : Nat}
    (hbs : bs = pre ++ (word n ++ post)) (hpos : pos = pre.length)
    (hn : n < 2 ^ 256) : readWord bs pos = some n := by
  rw [readWord, extract_at pre (word n) post hbs hpos (word_length n).symm,
    Option.map_some', fromBe_word hn]

/-- Length of a flattened list of words. -/
theorem flatten_map_word_length (xs : List Nat) :
    ((xs.map word).flatten).length = 32 * xs.length := by
  induction xs with
  | nil => rfl
  | cons x l ih =>
      rw [List.map_cons, List.flatten_cons, List.length_append, word_length, ih,
        List.length_cons]
      omega

/-- Length of an encoded `uint256[]`. -/
theorem encUintArray_length (xs : List Nat) :
    (encUintArray xs).length = 32 + 32 * xs.length := by
  rw [encUintArray, List.length_append, word_length, flatten_map_word_length]

/-- Length of an encoded `bytes` value. -/
theorem encBytes_length (b : List Nat) :
    (encBytes b).length = 32 + b.length + padLen b.length := by
  simp [encBytes, List.length_append, word_length, List.length_replicate]
  omega

/-- The offset list has one entry per array element. -/
theorem offsetsFrom_length (start : Nat) (ds : List (List Nat)) :
    (offsetsFrom start ds).length = ds.length := by
  induction ds generalizing start with
  | nil => rfl
  | cons d l ih => simp [offsetsFrom, ih]

/-- Length of an encoded `bytes[]`. -/
theorem encBytesArray_length (ds : List (List Nat)) :
    (encBytesArray ds).length
      = 32 + 32 * ds.length + ((ds.map encBytes).flatten).length := by
  rw [encBytesArray, List.length_append, List.length_append, word_length,
    flatten_map_word_length, offsetsFrom_length]

/-- Length of the two-component dynamic tuple encoding. -/
theorem encTuple2Dyn_length (t1 t2 : List Nat) :
    (encTuple2Dyn t1 t2).length = 64 + t1.length + t2.length := by
  simp [encTuple2Dyn, List.length_append, word_length]
  omega

/-- Length of the five-component dynamic tuple encoding. -/
theorem encTuple5Dyn_length (t1 t2 t3 t4 t5 : List Nat) :
    (encTuple5Dyn t1 t2 t3 t4 t5).length
      = 160 + t1.length + t2.length + t3.length + t4.length + t5.length := by
  simp [encTuple5Dyn, List.length_append, word_length]
  omega

/-! ## Supporting lemmas: decoding recovers what was encoded -/

/-- Reading back `xs.length` words placed between a prefix and a suffix
recovers `xs`. -/
theorem decodeWords_at : ∀ (xs : List Nat) {bs : List Nat} (pre post : List Nat)
    {pos : Nat}, bs = pre ++ ((xs.map word).flatten ++ post) → pos = pre.length →
    (∀ x ∈ xs, x < 2 ^ 256) →
    decodeWords bs pos xs.length = some xs
  | [], bs, pre, post, pos, hbs, hpos, hx => by simp [decodeWords]
  | x :: xs, bs, pre, post, pos, hbs, hpos, hx => by
      have hbs1 : bs = pre ++ (word x ++ ((xs.map word).flatten ++ post)) := by
        simp [hbs, List.append_assoc]
      have h1 : readWord bs pos = some x :=
        readWord_at pre ((xs.map word).flatten ++ post) hbs1 hpos
          (hx x (List.mem_cons_self x xs))
      have hbs2 : bs = (pre ++ word x) ++ ((xs.map word).flatten ++ post) := by
        simp [hbs1, List.append_assoc]
      have h2 : decodeWords bs (pos + 32) xs.length = some xs :=
        decodeWords_at xs (pre ++ word x) post hbs2
          (by simp [List.length_append, word_length, hpos])
          (fun y hy => hx y (List.mem_cons_of_mem x hy))
      show decodeWords bs pos (xs.length + 1) = some (x :: xs)
      rw [decodeWords, h1, h2]
      rfl

/-- Decoding a `uint256[]` placed between a prefix and a suffix
recovers the array. -/
theorem decodeUintArrayAt_at {bs : List Nat} (pre post xs : List Nat) {pos : Nat}
    (hbs : bs = pre ++ (encUintArray xs ++ post)) (hpos : pos = pre.length)
    (hx : ∀ x ∈ xs, x < 2 ^ 256) (hk : xs.length < 2 ^ 256) :
    decodeUintArrayAt bs pos = some xs := by
  have hbs1 : bs = pre ++ (word xs.length ++ ((xs.map word).flatten ++ post)) := by
    simp [hbs, encUintArray, List.append_assoc]
  have h1 : readWord bs pos = some xs.length :=
    readWord_at pre ((xs.map word).flatten ++ post) hbs1 hpos hk
  have hbs2 : bs = (pre ++ word xs.length) ++ ((xs.map word).flatten ++ post) := by
    simp [hbs1, List.append_assoc]
  have h2 : decodeWords bs (pos + 32) xs.length = some xs :=
    decodeWords_at xs (pre ++ word xs.length) post hbs2
      (by simp [List.length_append, word_length, hpos]) hx
  rw [decodeUintArrayAt, h1]
  exact h2

/-- Decoding an `address[]` placed between a prefix and a suffix
recovers the addresses when they are genuine 20-byte values. -/
theorem decodeAddrArrayAt_at {bs : List Nat} (pre post xs : List Nat) {pos : Nat}
    (hbs : bs = pre ++ (encAddressArray xs ++ post)) (hpos : pos = pre.length)
    (hx : ∀ x ∈ xs, x < 2 ^ 160) (hk : xs.length < 2 ^ 256) :
    decodeAddrArrayAt bs pos = some xs := by
  have h1 : decodeUintArrayAt bs pos = some xs :=
    decodeUintArrayAt_at pre post xs hbs hpos
      (fun x hxm => lt_trans (hx x hxm) (by norm_num)) hk
  rw [decodeAddrArrayAt, h1, Option.map_some']
  congr 1
  rw [show xs.map (· % 2 ^ 160) = xs.map id from
    List.map_congr_left fun x hxm => Nat.mod_eq_of_lt (hx x hxm), List.map_id]

/-- Decoding a dynamic `bytes` value placed between a prefix and a
suffix recovers the payload. -/
theorem decodeBytesAt_at {bs : List Nat} (pre post b : List Nat) {pos : Nat}
    (hbs : bs = pre ++ (encBytes b ++ post)) (hpos : pos = pre.length)
    (hb : b.length < 2 ^ 256) :
    decodeBytesAt bs pos = some b := by
  have hbs1 : bs = pre ++ (word b.length
      ++ (b ++ (List.replicate (padLen b.length) 0 ++ post))) := by
    simp [hbs, encBytes, List.append_assoc]
  have h1 : readWord bs pos = some b.length :=
    readWord_at pre (b ++ (List.replicate (padLen b.length) 0 ++ post)) hbs1 hpos hb
  have h2 : extract bs (pos + 32) b.length = some b :=
    extract_at (pre ++ word b.length) b
      (List.replicate (padLen b.length) 0 ++ post)
      (by simp [hbs1, List.append_assoc])
      (by simp [List.length_append, word_length, hpos]) rfl
  rw [decodeBytesAt, h1]
  exact h2

/-- Walking the head slots of a `bytes[]` recovers all elements: given
that the remaining offset words sit at `pos` and the remaining element
encodings sit at `base + start`, decoding the remaining count yields
the remaining elements. -/
theorem decodeBytesHeads_at : ∀ (ds : List (List Nat)) (bs : List Nat)
    (base pos start : Nat),
    extract bs pos (32 * ds.length) = some (((offsetsFrom start ds).map word).flatten) →
    extract bs (base + start) ((ds.map encBytes).flatten).length
      = some ((ds.map encBytes).flatten) →
    start + ((ds.map encBytes).flatten).length < 2 ^ 256 →
    decodeBytesHeads bs base pos ds.length = some ds
  | [], bs, base, pos, start, hH, hT, hb => by simp [decodeBytesHeads]
  | d :: ds, bs, base, pos, start, hH, hT, hb => by
      have hTsplit : ((d :: ds).map encBytes).flatten
          = encBytes d ++ (ds.map encBytes).flatten := by
        rw [List.map_cons, List.flatten_cons]
      have hdlen : (encBytes d).length = 32 + d.length + padLen d.length :=
        encBytes_length d
      have hTlen : ((d :: ds).map encBytes).flatten.length
          = (encBytes d).length + ((ds.map encBytes).flatten).length := by
        rw [hTsplit, List.length_append]
      have hEncSplit : encBytes d ++ (ds.map encBytes).flatten
          = word d.length
            ++ (d ++ (List.replicate (padLen d.length) 0 ++ (ds.map encBytes).flatten)) := by
        rw [encBytes]
        simp [List.append_assoc]
      have hHsplit : ((offsetsFrom start (d :: ds)).map word).flatten
          = word start
            ++ ((offsetsFrom (start + (encBytes d).length) ds).map word).flatten := by
        rw [offsetsFrom, List.map_cons, List.flatten_cons]
      have hLcons : 32 * (d :: ds).length = 32 + 32 * ds.length := by
        rw [List.length_cons]
        omega
      -- the offset word for the first element reads back as `start`
      have hoff : readWord bs pos = some start := by
        have hsub := extract_sub hH 0 32 (by omega)
        rw [Nat.add_zero] at hsub
        have hw : ((((offsetsFrom start (d :: ds)).map word).flatten).drop 0).take 32
            = word start := by
          rw [List.drop_zero, hHsplit]
          exact List.take_left' (word_length start)
        rw [readWord, hsub, hw, Option.map_some',
          fromBe_word (show start < 2 ^ 256 by omega)]
      -- the first element's `bytes` encoding decodes at `base + start`
      have hfirst : decodeBytesAt bs (base + start) = some d := by
        have hlen1 : readWord bs (base + start) = some d.length := by
          have hsub := extract_sub hT 0 32 (by omega)
          rw [Nat.add_zero] at hsub
          have hw : ((((d :: ds).map encBytes).flatten).drop 0).take 32
              = word d.length := by
            rw [List.drop_zero, hTsplit, hEncSplit]
            exact List.take_left' (word_length d.length)
          rw [readWord, hsub, hw, Option.map_some',
            fromBe_word (show d.length < 2 ^ 256 by omega)]
        have hdata : extract bs (base + start + 32) d.length = some d := by
          have hsub := extract_sub hT 32 d.length (by omega)
          have hdrop : (((d :: ds).map encBytes).flatten).drop 32
              = d ++ (List.replicate (padLen d.length) 0 ++ (ds.map encBytes).flatten) := by
            rw [hTsplit, hEncSplit]
            exact List.drop_left' (word_length d.length)
          have htake : (d ++ (List.replicate (padLen d.length) 0
              ++ (ds.map encBytes).flatten)).take d.length = d :=
            List.take_left' rfl
          rw [hsub, hdrop, htake]
        rw [decodeBytesAt, hlen1]
        exact hdata
      -- the remaining offset words sit right after the first one
      have hH' : extract bs (pos + 32) (32 * ds.length)
          = some (((offsetsFrom (start + (encBytes d).length) ds).map word).flatten) := by
        have hsub := extract_sub hH 32 (32 * ds.length) (by omega)
        have hdrop : (((offsetsFrom start (d :: ds)).map word).flatten).drop 32
            = ((offsetsFrom (start + (encBytes d).length) ds).map word).flatten := by
          rw [hHsplit]
          exact List.drop_left' (word_length start)
        have hlen : (((offsetsFrom (start + (encBytes d).length) ds).map word).flatten).length
            = 32 * ds.length := by
          rw [flatten_map_word_length, offsetsFrom_length]
        have htake : (((offsetsFrom (start + (encBytes d).length) ds).map word).flatten).take
            (32 * ds.length)
            = ((offsetsFrom (start + (encBytes d).length) ds).map word).flatten := by
          rw [← hlen]
          exact List.take_length _
        rw [hsub, hdrop, htake]
      -- the remaining element encodings sit right after the first one
      have hT' : extract bs (base + (start + (encBytes d).length))
          ((ds.map encBytes).flatten).length = some ((ds.map encBytes).flatten) := by
        have hsub := extract_sub hT (encBytes d).length
          ((ds.map encBytes).flatten).length (by omega)
        have hdrop : (((d :: ds).map encBytes).flatten).drop (encBytes d).length
            = (ds.map encBytes).flatten := by
          rw [hTsplit]
          exact List.drop_left' rfl
        have htake : ((ds.map encBytes).flatten).take ((ds.map encBytes).flatten).length
            = (ds.map encBytes).flatten := List.take_length _
        rw [show base + (start + (encBytes d).length)
          = base + start + (encBytes d).length by omega, hsub, hdrop, htake]
      have hrest : decodeBytesHeads bs base (pos + 32) ds.length = some ds :=
        decodeBytesHeads_at ds bs base (pos + 32) (start + (encBytes d).length)
          hH' hT' (by omega)
      show decodeBytesHeads bs base pos (ds.length + 1) = some (d :: ds)
      rw [decodeBytesHeads]
      simp [hoff, hfirst, hrest]

/-- Decoding a `bytes[]` placed between a prefix and a suffix recovers
all elements. -/
theorem decodeBytesArrayAt_at {bs : List Nat} (pre post : List Nat)
    (ds : List (List Nat)) {pos : Nat}
    (hbs : bs = pre ++ (encBytesArray ds ++ post)) (hpos : pos = pre.length)
    (hk : ds.length < 2 ^ 256)
    (hbound : 32 * ds.length + ((ds.map encBytes).flatten).length < 2 ^ 256) :
    decodeBytesArrayAt bs pos = some ds := by
  have hbs1 : bs = pre ++ (word ds.length
      ++ (((offsetsFrom (32 * ds.length) ds).map word).flatten
        ++ ((ds.map encBytes).flatten ++ post))) := by
    simp [hbs, encBytesArray, List.append_assoc]
  have h1 : readWord bs pos = some ds.length :=
    readWord_at pre (((offsetsFrom (32 * ds.length) ds).map word).flatten
      ++ ((ds.map encBytes).flatten ++ post)) hbs1 hpos hk
  have hH : extract bs (pos + 32) (32 * ds.length)
      = some (((offsetsFrom (32 * ds.length) ds).map word).flatten) :=
    extract_at (pre ++ word ds.length)
      (((offsetsFrom (32 * ds.length) ds).map word).flatten)
      ((ds.map encBytes).flatten ++ post)
      (by simp [hbs1, List.append_assoc])
      (by simp [List.length_append, word_length, hpos])
      (by rw [flatten_map_word_length, offsetsFrom_length])
  have hT : extract bs ((pos + 32) + 32 * ds.length)
      ((ds.map encBytes).flatten).length = some ((ds.map encBytes).flatten) :=
    extract_at (pre ++ word ds.length
        ++ ((offsetsFrom (32 * ds.length) ds).map word).flatten)
      ((ds.map encBytes).flatten) post
      (by simp [hbs1, List.append_assoc])
      (by rw [hpos, List.length_append, List.length_append, word_length,
        flatten_map_word_length, offsetsFrom_length])
      rfl
  have hheads : decodeBytesHeads bs (pos + 32) (pos + 32) ds.length = some ds :=
    decodeBytesHeads_at ds bs (pos + 32) (pos + 32) (32 * ds.length) hH hT hbound
  rw [decodeBytesArrayAt]
  simp [h1, hheads]

/-- Length of the inner external-calls blob. -/
theorem innerBlob_length (addrs : List Nat) (datas : List (List Nat)) :
    (innerBlob addrs datas).length
      = 64 + (encAddressArray addrs).length + (encBytesArray datas).length := by
  rw [innerBlob, encTuple2Dyn_length]

/-- Fully right-nested decomposition of the inner blob. -/
theorem innerBlob_decomp (addrs : List Nat) (datas : List (List Nat)) :
    innerBlob addrs datas
      = word 64 ++ (word (64 + (encAddressArray addrs).length)
        ++ (encAddressArray addrs ++ encBytesArray datas)) := by
  unfold innerBlob encTuple2Dyn
  simp only [List.append_assoc]

/-- Decoding the inner `['address[]','bytes[]']` blob recovers the
resolved target addresses and the call-data byte strings. -/
theorem decodeExternalCallsData_roundtrip (addrs : List Nat)
    (datas : List (List Nat)) (ha : ∀ a ∈ addrs, a < 2 ^ 160)
    (hsz : (innerBlob addrs datas).length < 2 ^ 256) :
    decodeExternalCallsData (innerBlob addrs datas) = some (addrs, datas) := by
  have hlen1 : (encAddressArray addrs).length = 32 + 32 * addrs.length :=
    encUintArray_length addrs
  have hlen2 : (encBytesArray datas).length
      = 32 + 32 * datas.length + ((datas.map encBytes).flatten).length :=
    encBytesArray_length datas
  rw [innerBlob_length] at hsz
  have ho1 : readWord (innerBlob addrs datas) 0 = some 64 :=
    readWord_at []
      (word (64 + (encAddressArray addrs).length)
        ++ (encAddressArray addrs ++ encBytesArray datas))
      (by rw [innerBlob_decomp, List.nil_append]) rfl (by norm_num)
  have ho2 : readWord (innerBlob addrs datas) 32
      = some (64 + (encAddressArray addrs).length) :=
    readWord_at (word 64) (encAddressArray addrs ++ encBytesArray datas)
      (innerBlob_decomp addrs datas) (word_length 64).symm (by omega)
  have haddrs : decodeAddrArrayAt (innerBlob addrs datas) 64 = some addrs :=
    decodeAddrArrayAt_at (word 64 ++ word (64 + (encAddressArray addrs).length))
      (encBytesArray datas) addrs
      (by rw [innerBlob_decomp, List.append_assoc])
      (by rw [List.length_append, word_length, word_length])
      ha (by omega)
  have hdatas : decodeBytesArrayAt (innerBlob addrs datas)
      (64 + (encAddressArray addrs).length) = some datas :=
    decodeBytesArrayAt_at
      (word 64 ++ (word (64 + (encAddressArray addrs).length) ++ encAddressArray addrs))
      [] datas
      (by rw [innerBlob_decomp, List.append_nil, List.append_assoc, List.append_assoc])
      (by rw [List.length_append, List.length_append, word_length, word_length]
          omega)
      (by omega) (by omega)
  rw [decodeExternalCallsData]
  simp [ho1, ho2, haddrs, hdatas]

/-- Length of the outer execute-calls blob. -/
theorem outerBlob_length (i m s p b : List Nat) :
    (outerBlob i m s p b).length
      = 160 + (encAddressArray i).length + (encUintArray m).length
        + (encAddressArray s).length + (encUintArray p).length
        + (encBytes b).length := by
  rw [outerBlob, encTuple5Dyn_length]

/-- Fully right-nested decomposition of the outer blob. -/
theorem outerBlob_decomp (i m s p b : List Nat) :
    outerBlob i m s p b
      = word 160
        ++ (word (160 + (encAddressArray i).length)
        ++ (word (160 + (encAddressArray i).length + (encUintArray m).length)
        ++ (word (160 + (encAddressArray i).length + (encUintArray m).length
              + (encAddressArray s).length)
        ++ (word (160 + (encAddressArray i).length + (encUintArray m).length
              + (encAddressArray s).length + (encUintArray p).length)
        ++ (encAddressArray i
        ++ (encUintArray m
        ++ (encAddressArray s
        ++ (encUintArray p ++ encBytes b)))))))) := by
  unfold outerBlob encTuple5Dyn
  simp only [List.append_assoc]

/-- Decoding the outer
`['address[]','uint256[]','address[]','uint256[]','bytes']` blob
recovers the five encoded components. -/
theorem decodeExecuteCallsArgs_roundtrip
    (incoming minAmounts spend spendAmounts inner : List Nat)
    (h1 : ∀ a ∈ incoming, a < 2 ^ 160) (h2 : ∀ x ∈ minAmounts, x < 2 ^ 256)
    (h3 : ∀ a ∈ spend, a < 2 ^ 160) (h4 : ∀ x ∈ spendAmounts, x < 2 ^ 256)
    (hsz : (outerBlob incoming minAmounts spend spendAmounts inner).length < 2 ^ 256) :
    decodeExecuteCallsArgs (outerBlob incoming minAmounts spend spendAmounts inner)
      = some (incoming, minAmounts, spend, spendAmounts, inner) := by
  have hlt1 : (encAddressArray incoming).length = 32 + 32 * incoming.length :=
    encUintArray_length incoming
  have hlt2 : (encUintArray minAmounts).length = 32 + 32 * minAmounts.length :=
    encUintArray_length minAmounts
  have hlt3 : (encAddressArray spend).length = 32 + 32 * spend.length :=
    encUintArray_length spend
  have hlt4 : (encUintArray spendAmounts).length = 32 + 32 * spendAmounts.length :=
    encUintArray_length spendAmounts
  have hlt5 : (encBytes inner).length = 32 + inner.length + padLen inner.length :=
    encBytes_length inner
  rw [outerBlob_length] at hsz
  have ho1 : readWord (outerBlob incoming minAmounts spend spendAmounts inner) 0
      = some 160 :=
    readWord_at []
      (word (160 + (encAddressArray incoming).length)
        ++ (word (160 + (encAddressArray incoming).length + (encUintArray minAmounts).length)
        ++ (word (160 + (encAddressArray incoming).length + (encUintArray minAmounts).length
              + (encAddressArray spend).length)
        ++ (word (160 + (encAddressArray incoming).length + (encUintArray minAmounts).length
              + (encAddressArray spend).length + (encUintArray spendAmounts).length)
        ++ (encAddressArray incoming
        ++ (encUintArray minAmounts
        ++ (encAddressArray spend
        ++ (encUintArray spendAmounts ++ encBytes inner))))))))
      (by rw [outerBlob_decomp, List.nil_append]) rfl (by norm_num)
  have ho2 : readWord (outerBlob incoming minAmounts spend spendAmounts inner) 32
      = some (160 + (encAddressArray incoming).length) :=
    readWord_at (word 160)
      (word (160 + (encAddressArray incoming).length + (encUintArray minAmounts).length)
        ++ (word (160 + (encAddressArray incoming).length + (encUintArray minAmounts).length
              + (encAddressArray spend).length)
        ++ (word (160 + (encAddressArray incoming).length + (encUintArray minAmounts).length
              + (encAddressArray spend).length + (encUintArray spendAmounts).length)
        ++ (encAddressArray incoming
        ++ (encUintArray minAmounts
        ++ (encAddressArray spend
        ++ (encUintArray spendAmounts ++ encBytes inner)))))))
      (outerBlob_decomp incoming minAmounts spend spendAmounts inner)
      (word_length 160).symm (by omega)
  have ho3 : readWord (outerBlob incoming minAmounts spend spendAmounts inner) 64
      = some (160 + (encAddressArray incoming).length + (encUintArray minAmounts).length) :=
    readWord_at (word 160 ++ word (160 + (encAddressArray incoming).length))
      (word (160 + (encAddressArray incoming).length + (encUintArray minAmounts).length
              + (encAddressArray spend).length)
        ++ (word (160 + (encAddressArray incoming).length + (encUintArray minAmounts).length
              + (encAddressArray spend).length + (encUintArray spendAmounts).length)
        ++ (encAddressArray incoming
        ++ (encUintArray minAmounts
        ++ (encAddressArray spend
        ++ (encUintArray spendAmounts ++ encBytes inner))))))
      (by rw [outerBlob_decomp]
          simp only [List.append_assoc])
      (by simp only [List.length_append, word_length])
      (by omega)
  have ho4 : readWord (outerBlob incoming minAmounts spend spendAmounts inner) 96
      = some (160 + (encAddressArray incoming).length + (encUintArray minAmounts).length
          + (encAddressArray spend).length) :=
    readWord_at (word 160 ++ word (160 + (encAddressArray incoming).length)
        ++ word (160 + (encAddressArray incoming).length + (encUintArray minAmounts).length))
      (word (160 + (encAddressArray incoming).length + (encUintArray minAmounts).length
              + (encAddressArray spend).length + (encUintArray spendAmounts).length)
        ++ (encAddressArray incoming
        ++ (encUintArray minAmounts
        ++ (encAddressArray spend
        ++ (encUintArray spendAmounts ++ encBytes inner)))))
      (by rw [outerBlob_decomp]
          simp only [List.append_assoc])
      (by simp only [List.length_append, word_length])
      (by omega)
  have ho5 : readWord (outerBlob incoming minAmounts spend spendAmounts inner) 128
      = some (160 + (encAddressArray incoming).length + (encUintArray minAmounts).length
          + (encAddressArray spend).length + (encUintArray spendAmounts).length) :=
    readWord_at (word 160 ++ word (160 + (encAddressArray incoming).length)
        ++ word (160 + (encAddressArray incoming).length + (encUintArray minAmounts).length)
        ++ word (160 + (encAddressArray incoming).length + (encUintArray minAmounts).length
              + (encAddressArray spend).length))
      (encAddressArray incoming
        ++ (encUintArray minAmounts
        ++ (encAddressArray spend
        ++ (encUintArray spendAmounts ++ encBytes inner))))
      (by rw [outerBlob_decomp]
          simp only [List.append_assoc])
      (by simp only [List.length_append, word_length])
      (by omega)
  have hd1 : decodeAddrArrayAt (outerBlob incoming minAmounts spend spendAmounts inner)
      160 = some incoming :=
    decodeAddrArrayAt_at
      (word 160 ++ word (160 + (encAddressArray incoming).length)
        ++ word (160 + (encAddressArray incoming).length + (encUintArray minAmounts).length)
        ++ word (160 + (encAddressArray incoming).length + (encUintArray minAmounts).length
              + (encAddressArray spend).length)
        ++ word (160 + (encAddressArray incoming).length + (encUintArray minAmounts).length
              + (encAddressArray spend).length + (encUintArray spendAmounts).length))
      (encUintArray minAmounts
        ++ (encAddressArray spend
        ++ (encUintArray spendAmounts ++ encBytes inner)))
      incoming
      (by rw [outerBlob_decomp]
          simp only [List.append_assoc])
      (by simp only [List.length_append, word_length])
      h1 (by omega)
  have hd2 : decodeUintArrayAt (outerBlob incoming minAmounts spend spendAmounts inner)
      (160 + (encAddressArray incoming).length) = some minAmounts :=
    decodeUintArrayAt_at
      (word 160 ++ word (160 + (encAddressArray incoming).length)
        ++ word (160 + (encAddressArray incoming).length + (encUintArray minAmounts).length)
        ++ word (160 + (encAddressArray incoming).length + (encUintArray minAmounts).length
              + (encAddressArray spend).length)
        ++ word (160 + (encAddressArray incoming).length + (encUintArray minAmounts).length
              + (encAddressArray spend).length + (encUintArray spendAmounts).length)
        ++ encAddressArray incoming)
      (encAddressArray spend ++ (encUintArray spendAmounts ++ encBytes inner))
      minAmounts
      (by rw [outerBlob_decomp]
          simp only [List.append_assoc])
      (by simp only [List.length_append, word_length])
      h2 (by omega)
  have hd3 : decodeAddrArrayAt (outerBlob incoming minAmounts spend spendAmounts inner)
      (160 + (encAddressArray incoming).length + (encUintArray minAmounts).length)
      = some spend :=
    decodeAddrArrayAt_at
      (word 160 ++ word (160 + (encAddressArray incoming).length)
        ++ word (160 + (encAddressArray incoming).length + (encUintArray minAmounts).length)
        ++ word (160 + (encAddressArray incoming).length + (encUintArray minAmounts).length
              + (encAddressArray spend).length)
        ++ word (160 + (encAddressArray incoming).length + (encUintArray minAmounts).length
              + (encAddressArray spend).length + (encUintArray spendAmounts).length)
        ++ encAddressArray incoming ++ encUintArray minAmounts)
      (encUintArray spendAmounts ++ encBytes inner)
      spend
      (by rw [outerBlob_decomp]
          simp only [List.append_assoc])
      (by simp only [List.length_append, word_length])
      h3 (by omega)
  have hd4 : decodeUintArrayAt (outerBlob incoming minAmounts spend spendAmounts inner)
      (160 + (encAddressArray incoming).length + (encUintArray minAmounts).length
        + (encAddressArray spend).length) = some spendAmounts :=
    decodeUintArrayAt_at
      (word 160 ++ word (160 + (encAddressArray incoming).length)
        ++ word (160 + (encAddressArray incoming).length + (encUintArray minAmounts).length)
        ++ word (160 + (encAddressArray incoming).length + (encUintArray minAmounts).length
              + (encAddressArray spend).length)
        ++ word (160 + (encAddressArray incoming).length + (encUintArray minAmounts).length
              + (encAddressArray spend).length + (encUintArray spendAmounts).length)
        ++ encAddressArray incoming ++ encUintArray minAmounts ++ encAddressArray spend)
      (encBytes inner)
      spendAmounts
      (by rw [outerBlob_decomp]
          simp only [List.append_assoc])
      (by simp only [List.length_append, word_length])
      h4 (by omega)
  have hd5 : decodeBytesAt (outerBlob incoming minAmounts spend spendAmounts inner)
      (160 + (encAddressArray incoming).length + (encUintArray minAmounts).length
        + (encAddressArray spend).length + (encUintArray spendAmounts).length)
      = some inner :=
    decodeBytesAt_at
      (word 160 ++ word (160 + (encAddressArray incoming).length)
        ++ word (160 + (encAddressArray incoming).length + (encUintArray minAmounts).length)
        ++ word (160 + (encAddressArray incoming).length + (encUintArray minAmounts).length
              + (encAddressArray spend).length)
        ++ word (160 + (encAddressArray incoming).length + (encUintArray minAmounts).length
              + (encAddressArray spend).length + (encUintArray spendAmounts).length)
        ++ encAddressArray incoming ++ encUintArray minAmounts ++ encAddressArray spend
        ++ encUintArray spendAmounts)
      [] inner
      (by rw [outerBlob_decomp]
          simp only [List.append_nil, List.append_assoc])
      (by simp only [List.length_append, word_length])
      (by omega)
  rw [decodeExecuteCallsArgs]
  simp [ho1, ho2, ho3, ho4, ho5, hd1, hd2, hd3, hd4, hd5]

/-- C1: whenever every asset reference resolves to an address, the
encoder output of `encode_generic_adapter_execute_calls_args` is the
canonical outer blob, the canonical ABI decoder for
`['address[]','uint256[]','address[]','uint256[]','bytes']` recovers
exactly the resolved incoming addresses, the minimum incoming amounts,
the resolved spend addresses, the spend amounts and the inner blob, and
decoding the inner blob as `['address[]','bytes[]']` recovers exactly
the resolved target addresses and the original call-data list.  The
range hypotheses say the values are genuine 20-byte addresses and
uint256 values and the encoding fits in `2 ^ 256` bytes, which the ABI
offset words require. -/
theorem c1_encode_execute_calls_roundtrip
    (incoming_assets spend_assets : List Asset)
    (min_incoming_asset_amounts spend_asset_amounts : List Nat)
    (external_calls : List (Asset × List Nat))
    (incoming spend targets : List Nat)
    (hinc : _addressify_collection incoming_assets = some incoming)
    (hsp : _addressify_collection spend_assets = some spend)
    (htg : _addressify_collection (external_calls.map Prod.fst) = some targets)
    (hinc160 : ∀ a ∈ incoming, a < 2 ^ 160)
    (hsp160 : ∀ a ∈ spend, a < 2 ^ 160)
    (htg160 : ∀ a ∈ targets, a < 2 ^ 160)
    (hmin : ∀ x ∈ min_incoming_asset_amounts, x < 2 ^ 256)
    (hspa : ∀ x ∈ spend_asset_amounts, x < 2 ^ 256)
    (hsz : (outerBlob incoming min_incoming_asset_amounts spend spend_asset_amounts
        (innerBlob targets (external_calls.map Prod.snd))).length < 2 ^ 256) :
    encode_generic_adapter_execute_calls_args incoming_assets
        min_incoming_asset_amounts spend_assets spend_asset_amounts external_calls
      = some (outerBlob incoming min_incoming_asset_amounts spend
          spend_asset_amounts (innerBlob targets (external_calls.map Prod.snd))) ∧
    decodeExecuteCallsArgs (outerBlob incoming min_incoming_asset_amounts spend
        spend_asset_amounts (innerBlob targets (external_calls.map Prod.snd)))
      = some (incoming, min_incoming_asset_amounts, spend, spend_asset_amounts,
          innerBlob targets (external_calls.map Prod.snd)) ∧
    decodeExternalCallsData (innerBlob targets (external_calls.map Prod.snd))
      = some (targets, external_calls.map Prod.snd) := by
  refine ⟨?_, ?_, ?_⟩
  · rw [encode_generic_adapter_execute_calls_args]
    simp [htg, hinc, hsp]
  · exact decodeExecuteCallsArgs_roundtrip _ _ _ _ _ hinc160 hmin hsp160 hspa hsz
  · apply decodeExternalCallsData_roundtrip _ _ htg160
    have h5 : (encBytes (innerBlob targets (external_calls.map Prod.snd))).length
        = 32 + (innerBlob targets (external_calls.map Prod.snd)).length
          + padLen (innerBlob targets (external_calls.map Prod.snd)).length :=
      encBytes_length _
    rw [outerBlob_length] at hsz
    omega

set_option maxRecDepth 40000 in
/-- Witness for C1 at a concrete input: one incoming asset, one spend
asset, one external call with three bytes of call data. -/
theorem c1_witness :
    encode_generic_adapter_execute_calls_args [Asset.contract 5] [7]
        [Asset.contract 9] [11] [(Asset.contract 13, [1, 2, 3])]
      = some (outerBlob [5] [7] [9] [11] (innerBlob [13] [[1, 2, 3]])) ∧
    decodeExecuteCallsArgs (outerBlob [5] [7] [9] [11] (innerBlob [13] [[1, 2, 3]]))
      = some ([5], [7], [9], [11], innerBlob [13] [[1, 2, 3]]) ∧
    decodeExternalCallsData (innerBlob [13] [[1, 2, 3]])
      = some ([13], [[1, 2, 3]]) :=
  c1_encode_execute_calls_roundtrip [Asset.contract 5] [Asset.contract 9] [7] [11]
    [(Asset.contract 13, [1, 2, 3])] [5] [9] [13] rfl rfl rfl
    (by decide) (by decide) (by decide) (by decide) (by decide) (by decide)
